import Mathlib

/-!
Verification of the hgraph runtime engine against its specification.

Engine times (Python `datetime`) are embedded as integers; durations
(`timedelta`) compose by addition, so a duration is also an integer.
The smallest representable positive duration `MIN_TD` becomes `1`.
-/

namespace HGraph

/-- Modelled from the spec: the constants module (`MIN_TD`, `MAX_DT`,
`MIN_DT`, `MIN_ST`) is not part of the provided sources.  `MIN_TD` is the
smallest representable positive duration, so with integer timestamps it
is `1`. -/
def MIN_TD : Int := 1

/-- Modelled from the spec: `MAX_DT` is the sentinel meaning "never",
larger than any timestamp arising in a run. -/
def MAX_DT : Int := 2 ^ 62

/-- Modelled from the spec: `MIN_DT` is the smallest representable
timestamp. -/
def MIN_DT : Int := 0

/-- Modelled from the spec: `MIN_ST` is the earliest allowed engine
start time. -/
def MIN_ST : Int := 1

/-! ## Execution context (src/hg/_impl/_runtime/_graph_engine.py)

`BaseExecutionContext` holds the current engine time, the proposed next
engine time and the stop-requested flag. -/

structure BaseExecutionContext where
  current_engine_time : Int
  proposed_next_engine_time : Int
  stop_requested : Bool
deriving DecidableEq

/-- `BaseExecutionContext.next_cycle_engine_time`: `current + MIN_TD`. -/
def next_cycle_engine_time (c : BaseExecutionContext) : Int :=
  c.current_engine_time + MIN_TD

/-- The `current_engine_time` setter of `BaseExecutionContext`: stores the
new time and resets the proposal to `MAX_DT`. -/
def set_current_engine_time (c : BaseExecutionContext) (t : Int) :
    BaseExecutionContext :=
  { c with current_engine_time := t, proposed_next_engine_time := MAX_DT }

/-- `BaseExecutionContext.update_next_proposed_time`: ignore a proposal
equal to the current time, otherwise narrow the proposal to
`max (current + MIN_TD) (min proposed t)`. -/
def update_next_proposed_time (c : BaseExecutionContext) (t : Int) :
    BaseExecutionContext :=
  if t = c.current_engine_time then c
  else
    { c with
      proposed_next_engine_time :=
        max (next_cycle_engine_time c) (min c.proposed_next_engine_time t) }

/-- `BaseExecutionContext.request_engine_stop`. -/
def request_engine_stop (c : BaseExecutionContext) : BaseExecutionContext :=
  { c with stop_requested := true }

/-! ## Back-test execution context

`BackTestExecutionContext` additionally records the real (wall) time at
which the current engine time was set; real-clock readings
(`datetime.utcnow()`) are passed in explicitly as integers. -/

structure BackTestExecutionContext where
  base : BaseExecutionContext
  wall_clock_time_at_current_time : Int
deriving DecidableEq

/-- The `current_engine_time` setter of `BackTestExecutionContext`: store
the time, record the real clock reading, reset the proposal. -/
def bt_set_current_engine_time (c : BackTestExecutionContext) (t realNow : Int) :
    BackTestExecutionContext :=
  let b := { c.base with current_engine_time := t, proposed_next_engine_time := MAX_DT }
  { base := b, wall_clock_time_at_current_time := realNow }

/-- `BackTestExecutionContext.wait_until_proposed_engine_time`: simply set
the current engine time to the proposed time. -/
def bt_wait_until_proposed_engine_time (c : BackTestExecutionContext)
    (proposed_engine_time realNow : Int) : BackTestExecutionContext :=
  bt_set_current_engine_time c proposed_engine_time realNow

/-- `BackTestExecutionContext.engine_lag`: real now minus the real clock
reading recorded when the current engine time was set. -/
def bt_engine_lag (c : BackTestExecutionContext) (realNow : Int) : Int :=
  realNow - c.wall_clock_time_at_current_time

/-- `BackTestExecutionContext.wall_clock_time`: `current + engine_lag`. -/
def bt_wall_clock_time (c : BackTestExecutionContext) (realNow : Int) : Int :=
  c.base.current_engine_time + bt_engine_lag c realNow

/-- `BackTestExecutionContext.mark_push_has_pending_values` raises
`NotImplementedError`. -/
def bt_mark_push_has_pending_values (_c : BackTestExecutionContext) :
    Except String Unit :=
  .error "Back test engines should not contain push source nodes"

/-- `BackTestExecutionContext.push_has_pending_values` is always `False`. -/
def bt_push_has_pending_values (_c : BackTestExecutionContext) : Bool :=
  false

/-- `BackTestExecutionContext.reset_push_has_pending_values` does nothing. -/
def bt_reset_push_has_pending_values (c : BackTestExecutionContext) :
    BackTestExecutionContext :=
  c

/-! ## PythonGraphEngine.advance_engine_time

The engine reads `wall_clock_time` and `push_has_pending_values` from its
execution context; they are passed as explicit arguments.  The outcome is
either an assignment to `current_engine_time` or a delegation to
`wait_until_proposed_engine_time`. -/

inductive AdvanceResult where
  | setCurrent (t : Int)
  | waitUntil (t : Int)
deriving DecidableEq

/-- `PythonGraphEngine.advance_engine_time`, with the context fields and
environment readings passed explicitly. -/
def advance_engine_time (ctx : BaseExecutionContext)
    (wall_clock_time : Int) (push_has_pending_values : Bool)
    (end_time : Int) : AdvanceResult :=
  if ctx.stop_requested then
    .setCurrent (end_time + MIN_TD)
  else
    let proposed := min ctx.proposed_next_engine_time (end_time + MIN_TD)
    if proposed ≤ wall_clock_time then
      .setCurrent proposed
    else if push_has_pending_values then
      .setCurrent wall_clock_time
    else
      .waitUntil proposed

/-! ## PythonGraphEngine.stop observer trace

`stop` notifies `on_before_stop`, then for each node in order notifies
`on_before_stop_node`, calls `node.stop()`, and then calls
`notify_before_start_node` (which emits `on_before_start_node`), and
finally notifies `on_after_stop`.  We record the sequence of events as
seen by a single lifecycle observer. -/

inductive ObserverEvent where
  | on_before_stop
  | on_before_stop_node (i : Nat)
  | node_stop (i : Nat)
  | on_before_start_node (i : Nat)
  | on_after_stop_node (i : Nat)
  | on_after_stop
deriving DecidableEq

/-- The event trace of `PythonGraphEngine.stop` over a graph with
`num_nodes` nodes, as observed by one lifecycle observer. -/
def engine_stop_trace (num_nodes : Nat) : List ObserverEvent :=
  [ObserverEvent.on_before_stop]
    ++ ((List.range num_nodes).map (fun i =>
          [ObserverEvent.on_before_stop_node i, ObserverEvent.node_stop i,
           ObserverEvent.on_before_start_node i])).flatten
    ++ [ObserverEvent.on_after_stop]

/-! ## PythonGraphEngine.run argument validation

`run` first stores `start_time` and `end_time` on the engine and only
then validates `end_time < start_time`; on failure it raises before the
scoped start/stop guard, so the engine is never started and no tick is
evaluated. -/

structure EngineRunState where
  is_started : Bool
  start_time : Option Int
  end_time : Option Int
deriving DecidableEq

inductive RunOutcome where
  | argError (msg : String)
  | proceed
deriving DecidableEq

/-- The head of `PythonGraphEngine.run`: record the requested times, then
validate.  `proceed` marks reaching the scoped start/stop guard (where
`start`, the tick loop and `stop` happen); `argError` marks the raise, at
which point the engine is not started and no tick has been evaluated. -/
def run_set_times_and_validate (e : EngineRunState) (start_time end_time : Int) :
    EngineRunState × RunOutcome :=
  let e1 := { e with start_time := some start_time, end_time := some end_time }
  if end_time < start_time then
    (e1, .argError "End time cannot be before the start time")
  else
    (e1, .proceed)

/-! ## NodeImpl.eval (src/src/hgraph/_impl/_runtime/_node.py)

The ordinary-node `eval` reads the scheduler, the input validity flags and
the signature; we collect what it reads into an environment record.  The
`modified` flags of inputs are carried so the defensive-gate claim can be
stated, although the source never reads them in `eval`. -/

structure NodeEvalEnv where
  has_scheduler : Bool
  is_scheduled_now : Bool
  has_input : Bool
  valid_inputs : Option (List String)
  time_series_inputs : List String
  input_valid : String → Bool
  input_modified : String → Bool

structure NodeEvalResult where
  eval_fn_called : Bool
  scheduler_advanced : Bool
deriving DecidableEq

/-- `NodeImpl.eval`: compute `scheduled`, gate on input validity, apply the
internal short-circuit (which re-reads `valid`, not `modified`), then call
`eval_fn` and advance the scheduler when `scheduled`.  The application of a
non-null return value to the output is not modelled (it depends only on
the value `eval_fn` returns, which the claims do not mention). -/
def node_eval (env : NodeEvalEnv) : NodeEvalResult :=
  let scheduled := env.has_scheduler && env.is_scheduled_now
  if env.has_input then
    let args := env.valid_inputs.getD env.time_series_inputs
    if !(args.all env.input_valid) then
      ⟨false, false⟩
    else if env.has_scheduler && (!scheduled) && !(args.any env.input_valid) then
      ⟨false, false⟩
    else
      ⟨true, scheduled⟩
  else
    ⟨true, scheduled⟩

/-- The failing environment for the defensive-gate claim: a scheduler
exists, the node is not scheduled now, the single required input `x` is
valid but not modified at the current engine time. -/
def stale_wakeup_env : NodeEvalEnv :=
  { has_scheduler := true
    is_scheduled_now := false
    has_input := true
    valid_inputs := none
    time_series_inputs := ["x"]
    input_valid := fun _ => true
    input_modified := fun _ => false }

/-! ## NodeSchedulerImpl (src/src/hgraph/_impl/_runtime/_node.py)

The scheduler holds a `SortedList` of `(fire_time, tag_string)` pairs
(tuples compare lexicographically) and a dict `tag → fire_time` whose keys
include `None` for anonymous entries; the event list stores `""` for an
anonymous tag.  `SortedList.remove` raises `ValueError` when the element
is absent, so removal is embedded as `Except`. -/

abbrev SchedTag := Option String

structure NodeSchedulerState where
  node_ndx : Nat
  scheduled_events : List (Int × String)
  tags : List (SchedTag × Int)
deriving DecidableEq

/-- Python dict assignment `d[k] = v`: replace in place or append. -/
def tags_insert : List (SchedTag × Int) → SchedTag → Int → List (SchedTag × Int)
  | [], t, v => [(t, v)]
  | (k, w) :: rest, t, v =>
      if k = t then (t, v) :: rest else (k, w) :: tags_insert rest t v

/-- Python dict lookup `d.get(k)` over the association list. -/
def tags_lookup (ts : List (SchedTag × Int)) (t : SchedTag) : Option Int :=
  match ts with
  | [] => none
  | (k, v) :: rest => if k = t then some v else tags_lookup rest t

/-- Lexicographic order on `(fire_time, tag)` pairs, as Python compares
tuples of `(datetime, str)`. -/
def pair_le (a b : Int × String) : Bool :=
  decide (a.1 < b.1) || (decide (a.1 = b.1) && decide (a.2 ≤ b.2))

/-- `SortedList.add`: insert keeping the list sorted. -/
def sorted_insert (p : Int × String) : List (Int × String) → List (Int × String)
  | [] => [p]
  | q :: rest => if pair_le p q then p :: q :: rest else q :: sorted_insert p rest

/-- `SortedList.remove`: remove one occurrence, raising `ValueError` when
the element is absent. -/
def sorted_remove (l : List (Int × String)) (p : Int × String) :
    Except String (List (Int × String)) :=
  if p ∈ l then .ok (l.erase p) else .error "ValueError"

/-- `when` may be an absolute `datetime` or a relative `timedelta`. -/
inductive WhenSpec where
  | abs (t : Int)
  | rel (d : Int)
deriving DecidableEq

/-- Resolve a relative `when` against the current evaluation time. -/
def resolve_when (clock : Int) : WhenSpec → Int
  | .abs t => t
  | .rel d => clock + d

/-- `NodeSchedulerImpl.next_scheduled_time`: head fire time or `MIN_DT`. -/
def next_scheduled_time (events : List (Int × String)) : Int :=
  (events.head?.map (fun p => p.1)).getD MIN_DT

/-- `NodeSchedulerImpl.schedule`.  `clock` is
`graph.evaluation_clock.evaluation_time` and `is_started` the owning node
state.  Steps, in source order: remove the pending same-tag event (named
tags only); resolve a relative `when`; if the resolved time is beyond the
gate (the clock when started, else `MIN_DT`) write the tag map (also under
the key `none`), insert the event (anonymous tag stored as `""`), and
report `graph.schedule_node(node_ndx, head)` when the head moved up;
otherwise leave the (possibly already shrunk) state.  The returned
`Option (Nat × Int)` is the `schedule_node` call, if any. -/
def schedule (s : NodeSchedulerState) (clock : Int) (is_started : Bool)
    (when : WhenSpec) (tag : SchedTag) :
    Except String (NodeSchedulerState × Option (Nat × Int)) :=
  let removed : Except String (List (Int × String)) :=
    match tag with
    | some t =>
        match tags_lookup s.tags (some t) with
        | some dt => sorted_remove s.scheduled_events (dt, t)
        | none => .ok s.scheduled_events
    | none => .ok s.scheduled_events
  match removed with
  | .error e => .error e
  | .ok events1 =>
      let resolved := resolve_when clock when
      let gate := if is_started then clock else MIN_DT
      if gate < resolved then
        let tags1 := tags_insert s.tags tag resolved
        let current_first := (events1.head?.map (fun p => p.1)).getD MAX_DT
        let events2 := sorted_insert (resolved, tag.getD "") events1
        let nxt := next_scheduled_time events2
        let call := if is_started && decide (nxt < current_first)
                    then some (s.node_ndx, nxt) else none
        .ok ({ s with scheduled_events := events2, tags := tags1 }, call)
      else
        .ok ({ s with scheduled_events := events1 }, none)

/-- `NodeSchedulerImpl.pop_tag`: remove the tag from the map and its event
from the queue, returning its time; `none` when the tag is absent. -/
def pop_tag (s : NodeSchedulerState) (tag : String) :
    Except String (NodeSchedulerState × Option Int) :=
  match tags_lookup s.tags (some tag) with
  | some dt =>
      match sorted_remove s.scheduled_events (dt, tag) with
      | .error e => .error e
      | .ok events1 =>
          let tags1 := s.tags.filter (fun p => !(decide (p.1 = some tag)))
          .ok ({ s with scheduled_events := events1, tags := tags1 }, some dt)
  | none => .ok (s, none)

/-- `NodeSchedulerImpl.advance`: pop events while the head fire time is at
or before the clock; if events remain, call
`graph.schedule_node(node_ndx, head_fire_time)`. -/
def advance (s : NodeSchedulerState) (clock : Int) :
    NodeSchedulerState × Option (Nat × Int) :=
  let events1 := s.scheduled_events.dropWhile (fun p => decide (p.1 ≤ clock))
  let call := events1.head?.map (fun p => (s.node_ndx, p.1))
  ({ s with scheduled_events := events1 }, call)

/-- Number of pending events carrying the tag string `t`. -/
def events_count_tag (l : List (Int × String)) (t : String) : Nat :=
  l.countP (fun p => p.2 == t)

/-- The scheduler state resulting from a `schedule` call, when it does not
raise. -/
def schedule_state (s : NodeSchedulerState) (clock : Int) (is_started : Bool)
    (when : WhenSpec) (tag : SchedTag) : Option NodeSchedulerState :=
  (schedule s clock is_started when tag).toOption.map Prod.fst

/-! ## GraphBuilderFactory (src/hg/_builder/_graph_builder.py)

Graph-builder classes are embedded as identifiers; `PythonGraphBuilder`
(the default) is the distinguished identifier `0`.  The process-wide
declaration slot is an `Option` over identifiers. -/

def default_graph_builder : Nat := 0

structure GraphEdge where
  src_node : Nat
  output_path : List (Nat ⊕ String)
  dst_node : Nat
  input_path : List (Nat ⊕ String)
deriving DecidableEq

/-- The `GraphBuilder` value produced by the factory: which class was
instantiated, with the node builders and edges passed through. -/
structure GraphBuilderVal where
  cls : Nat
  node_builders : List Nat
  edges : List GraphEdge
deriving DecidableEq

/-- `GraphBuilderFactory.is_declared`. -/
def gbf_is_declared (s : Option Nat) : Bool :=
  s.isSome

/-- `GraphBuilderFactory.declared`: raise when nothing is declared. -/
def gbf_declared (s : Option Nat) : Except String Nat :=
  match s with
  | none => .error "No graph builder type has been declared"
  | some c => .ok c

/-- `GraphBuilderFactory.declare`: raise (leaving the slot unchanged) when
a class is already declared, else store the class.  Returns the new slot
and the error, if any. -/
def gbf_declare (s : Option Nat) (cls : Nat) : Option Nat × Option String :=
  match s with
  | some c => (some c, some "A graph builder type has already been declared")
  | none => (some cls, none)

/-- `GraphBuilderFactory.un_declare`. -/
def gbf_un_declare (_s : Option Nat) : Option Nat :=
  none

/-- `GraphBuilderFactory.make`: instantiate the declared class when one is
declared, else the default. -/
def gbf_make (s : Option Nat) (node_builders : List Nat)
    (edges : List GraphEdge) : Except String GraphBuilderVal :=
  if gbf_is_declared s then
    match gbf_declared s with
    | .ok c => .ok ⟨c, node_builders, edges⟩
    | .error e => .error e
  else
    .ok ⟨default_graph_builder, node_builders, edges⟩

/-! ## Theorems -/

/-- Claim C1: for every context satisfying the documented invariant
`proposed ≥ current + MIN_TD` and every time `t`,
`update_next_proposed_time t` leaves the proposal unchanged when
`t = current`, otherwise sets it to
`max (current + MIN_TD) (min proposed t)`; hence the proposal never
increases and stays strictly greater than the current engine time. -/
theorem update_next_proposed_time_monotonic_narrowing
    (c : BaseExecutionContext) (t : Int)
    (hinv : c.current_engine_time + MIN_TD ≤ c.proposed_next_engine_time) :
    (t = c.current_engine_time → update_next_proposed_time c t = c) ∧
    (t ≠ c.current_engine_time →
      (update_next_proposed_time c t).proposed_next_engine_time
        = max (c.current_engine_time + MIN_TD)
            (min c.proposed_next_engine_time t)) ∧
    (update_next_proposed_time c t).proposed_next_engine_time
        ≤ c.proposed_next_engine_time ∧
    c.current_engine_time
        < (update_next_proposed_time c t).proposed_next_engine_time := by
  unfold MIN_TD at hinv
  by_cases h : t = c.current_engine_time
  · refine ⟨fun _ => ?_, fun hne => absurd h hne, ?_, ?_⟩
    · simp [update_next_proposed_time, h]
    · simp [update_next_proposed_time, h]
    · simp [update_next_proposed_time, h]
      omega
  · refine ⟨fun he => absurd he h, fun _ => ?_, ?_, ?_⟩
    · simp [update_next_proposed_time, h, next_cycle_engine_time]
    · simp [update_next_proposed_time, h, next_cycle_engine_time, MIN_TD]
      omega
    · simp [update_next_proposed_time, h, next_cycle_engine_time, MIN_TD]

/-- Witness for C1 at `current = 0`, `proposed = 10`, `t = 5`. -/
theorem update_next_proposed_time_monotonic_narrowing_w :
    (update_next_proposed_time ⟨0, 10, false⟩ 5).proposed_next_engine_time ≤ 10 ∧
    (0 : Int) < (update_next_proposed_time ⟨0, 10, false⟩ 5).proposed_next_engine_time := by
  have h := update_next_proposed_time_monotonic_narrowing ⟨0, 10, false⟩ 5 (by decide)
  exact ⟨h.2.2.1, h.2.2.2⟩

/-- Claim C2 (code bug): in `NodeImpl.eval`, with a scheduler present, the
node not scheduled now, every required input valid and no required input
modified at the current engine time, the code still invokes `eval_fn`: the
defensive gate re-reads `valid` (which the first gate already established)
instead of `modified`, so it never fires. -/
theorem node_eval_invokes_eval_fn_despite_stale_wakeup :
    (node_eval stale_wakeup_env).eval_fn_called = true ∧
    stale_wakeup_env.has_scheduler = true ∧
    stale_wakeup_env.is_scheduled_now = false ∧
    stale_wakeup_env.valid_inputs = none ∧
    stale_wakeup_env.time_series_inputs.all stale_wakeup_env.input_valid = true ∧
    stale_wakeup_env.time_series_inputs.any stale_wakeup_env.input_modified = false :=
  ⟨rfl, rfl, rfl, rfl, rfl, rfl⟩

/-- Claim C3 (code bug): the observer trace of `PythonGraphEngine.stop`
over a one-node graph emits `on_before_stop_node` before the node stop but
`on_before_start_node` (not `on_after_stop_node`) after it; no
`on_after_stop_node` event appears in the trace. -/
theorem stop_trace_misses_on_after_stop_node :
    engine_stop_trace 1
      = [ObserverEvent.on_before_stop, ObserverEvent.on_before_stop_node 0,
         ObserverEvent.node_stop 0, ObserverEvent.on_before_start_node 0,
         ObserverEvent.on_after_stop] ∧
    ObserverEvent.on_after_stop_node 0 ∉ engine_stop_trace 1 := by
  decide

/-- Claim C4 counterexample: running with `end_time < start_time` from a
fresh engine raises the argument error, but the resulting engine state
differs from the initial one: the `_start_time` and `_end_time` fields
were assigned before the validation check, so the run does not fail
before every engine state change. -/
theorem run_records_times_before_arg_error :
    (run_set_times_and_validate ⟨false, none, none⟩ 5 3).2
      = RunOutcome.argError "End time cannot be before the start time" ∧
    (run_set_times_and_validate ⟨false, none, none⟩ 5 3).1
      ≠ (⟨false, none, none⟩ : EngineRunState) := by
  decide

/-- Claim C4 (amended): a run with `end_time < start_time` raises the
argument error synchronously before the engine is started — the start
guard is never reached, so no tick is evaluated and `start` is never
invoked and `is_started` is unchanged — but the engine has already
recorded the requested start and end times. -/
theorem run_arg_error_fails_before_start (e : EngineRunState) (st en : Int)
    (h : en < st) :
    (run_set_times_and_validate e st en).2
      = RunOutcome.argError "End time cannot be before the start time" ∧
    (run_set_times_and_validate e st en).1.is_started = e.is_started ∧
    (run_set_times_and_validate e st en).1
      = { e with start_time := some st, end_time := some en } := by
  simp [run_set_times_and_validate, h]

/-- Witness for the amended C4 at a fresh engine, `start = 5`, `end = 3`. -/
theorem run_arg_error_fails_before_start_w :
    (run_set_times_and_validate ⟨false, none, none⟩ 5 3).2
      = RunOutcome.argError "End time cannot be before the start time" ∧
    (run_set_times_and_validate ⟨false, none, none⟩ 5 3).1.is_started = false := by
  have h := run_arg_error_fails_before_start ⟨false, none, none⟩ 5 3 (by decide)
  exact ⟨h.1, h.2.1⟩

/-- Claim C7: `advance_engine_time` jumps to `end_time + MIN_TD` when a
stop was requested (and that time fails the run-loop guard, so no further
tick runs); otherwise, with `proposed` capped at `end_time + MIN_TD`, it
advances to `proposed` when the wall clock has reached it, else to the
wall clock when push values are pending, else waits until `proposed`. -/
theorem advance_engine_time_follows_spec (ctx : BaseExecutionContext)
    (wall : Int) (push : Bool) (end_time : Int) :
    (ctx.stop_requested = true →
       advance_engine_time ctx wall push end_time
         = AdvanceResult.setCurrent (end_time + MIN_TD) ∧
       (set_current_engine_time ctx (end_time + MIN_TD)).current_engine_time
         = end_time + MIN_TD ∧
       ¬ (end_time + MIN_TD ≤ end_time)) ∧
    (ctx.stop_requested = false →
       (min ctx.proposed_next_engine_time (end_time + MIN_TD) ≤ wall →
          advance_engine_time ctx wall push end_time
            = AdvanceResult.setCurrent
                (min ctx.proposed_next_engine_time (end_time + MIN_TD))) ∧
       (wall < min ctx.proposed_next_engine_time (end_time + MIN_TD) →
        push = true →
          advance_engine_time ctx wall push end_time
            = AdvanceResult.setCurrent wall) ∧
       (wall < min ctx.proposed_next_engine_time (end_time + MIN_TD) →
        push = false →
          advance_engine_time ctx wall push end_time
            = AdvanceResult.waitUntil
                (min ctx.proposed_next_engine_time (end_time + MIN_TD)))) := by
  refine ⟨fun hs => ?_, fun hs => ⟨fun h1 => ?_, fun h1 h2 => ?_, fun h1 h2 => ?_⟩⟩
  · refine ⟨?_, ?_, ?_⟩
    · simp [advance_engine_time, hs]
    · simp [set_current_engine_time]
    · simp [MIN_TD]
  · simp [advance_engine_time, hs, h1]
  · simp [advance_engine_time, hs, h2, not_le.mpr h1]
  · simp [advance_engine_time, hs, h2, not_le.mpr h1]

/-- Witness for C7: the stop branch at a stopped context and the
wall-reached branch at a running context. -/
theorem advance_engine_time_follows_spec_w :
    advance_engine_time ⟨0, 10, true⟩ 0 false 7
      = AdvanceResult.setCurrent (7 + MIN_TD) ∧
    ¬ ((7 : Int) + MIN_TD ≤ 7) ∧
    advance_engine_time ⟨0, 10, false⟩ 20 false 7
      = AdvanceResult.setCurrent (min 10 (7 + MIN_TD)) := by
  have h1 := advance_engine_time_follows_spec ⟨0, 10, true⟩ 0 false 7
  have h2 := advance_engine_time_follows_spec ⟨0, 10, false⟩ 20 false 7
  exact ⟨(h1.1 rfl).1, (h1.1 rfl).2.2, (h2.2 rfl).1 (by decide)⟩

/-- Claim C8: in the back-test execution context, marking push-pending
values raises the unsupported-operation error, `push_has_pending_values`
is always `false`, and `wait_until_proposed_engine_time t` is exactly the
`current_engine_time` setter applied at `t` — no waiting. -/
theorem back_test_context_forbids_push (c : BackTestExecutionContext)
    (t realNow : Int) :
    bt_mark_push_has_pending_values c
      = Except.error "Back test engines should not contain push source nodes" ∧
    bt_push_has_pending_values c = false ∧
    bt_wait_until_proposed_engine_time c t realNow
      = bt_set_current_engine_time c t realNow ∧
    (bt_wait_until_proposed_engine_time c t realNow).base.current_engine_time
      = t :=
  ⟨rfl, rfl, rfl, rfl⟩

/-- Claim C9: declaring over an existing declaration fails with the
distinctive error and leaves the slot unchanged; reading `declared` with
nothing declared fails; `make` instantiates the declared class when one is
declared and the default class otherwise. -/
theorem graph_builder_factory_spec (c cls : Nat) (nbs : List Nat)
    (es : List GraphEdge) :
    gbf_declare (some c) cls
      = (some c, some "A graph builder type has already been declared") ∧
    gbf_declare none cls = (some cls, none) ∧
    gbf_declared (none : Option Nat)
      = Except.error "No graph builder type has been declared" ∧
    gbf_make (some c) nbs es = Except.ok ⟨c, nbs, es⟩ ∧
    gbf_make none nbs es = Except.ok ⟨default_graph_builder, nbs, es⟩ :=
  ⟨rfl, rfl, rfl, rfl, rfl⟩

/-! ### Helper lemmas for the scheduler -/

theorem dropWhile_gt_of_pairwise (clock : Int) :
    ∀ l : List (Int × String), l.Pairwise (fun a b => a.1 ≤ b.1) →
      ∀ p ∈ l.dropWhile (fun q => decide (q.1 ≤ clock)), clock < p.1 := by
  intro l
  induction l with
  | nil => intro _ p hp; simp [List.dropWhile] at hp
  | cons a rest ih =>
      intro hpw p hp
      rw [List.dropWhile_cons] at hp
      by_cases ha : a.1 ≤ clock
      · simp [ha] at hp
        exact ih hpw.tail p hp
      · simp [ha] at hp
        rcases hp with h | h
        · subst h; omega
        · have := List.rel_of_pairwise_cons hpw h
          omega

theorem mem_dropWhile_of_gt (clock : Int) (l : List (Int × String))
    (p : Int × String) (hp : p ∈ l) (hgt : clock < p.1) :
    p ∈ l.dropWhile (fun q => decide (q.1 ≤ clock)) := by
  rw [← List.takeWhile_append_dropWhile (p := fun q => decide (q.1 ≤ clock)) (l := l)]
    at hp
  rcases List.mem_append.mp hp with h | h
  · have := List.mem_takeWhile_imp h
    simp at this
    omega
  · exact h

theorem countP_sorted_insert_pos (f : Int × String → Bool) (p : Int × String)
    (hf : f p = true) :
    ∀ l : List (Int × String),
      (sorted_insert p l).countP f = l.countP f + 1 := by
  intro l
  induction l with
  | nil => simp [sorted_insert, List.countP_cons, hf]
  | cons q rest ih =>
      by_cases hle : pair_le p q = true
      · simp only [sorted_insert, hle, if_true]
        cases hfq : f q <;> simp [List.countP_cons, hf, hfq]
      · simp only [sorted_insert, hle, Bool.false_eq_true, if_false]
        cases hfq : f q <;> simp [List.countP_cons, hf, hfq, ih]

theorem countP_pos_of_mem (f : Int × String → Bool) (l : List (Int × String))
    (a : Int × String) (ha : a ∈ l) (hf : f a = true) : 1 ≤ l.countP f := by
  have : 0 < l.countP f := List.countP_pos_iff.mpr ⟨a, ha, hf⟩
  omega

theorem countP_erase_eq_zero (f : Int × String → Bool) :
    ∀ l : List (Int × String), ∀ a : Int × String,
      a ∈ l → f a = true → l.countP f ≤ 1 → (l.erase a).countP f = 0 := by
  intro l
  induction l with
  | nil => intro a ha _ _; simp at ha
  | cons b rest ih =>
      intro a ha hf hc
      rw [List.erase_cons]
      by_cases hba : b = a
      · subst hba
        rw [if_pos (by simp)]
        rw [List.countP_cons, hf] at hc
        rw [show (if (true = true) then (1 : Nat) else 0) = 1 from rfl] at hc
        omega
      · rw [if_neg (by simp [hba])]
        have hmem : a ∈ rest := by
          rcases List.mem_cons.mp ha with h | h
          · exact absurd h.symm hba
          · exact h
        rw [List.countP_cons] at hc
        rw [List.countP_cons]
        cases hfb : f b
        · rw [hfb] at hc
          simp only [Bool.false_eq_true, if_false, Nat.add_zero] at hc
          simp only [Bool.false_eq_true, if_false, Nat.add_zero]
          exact ih a hmem hf hc
        · rw [hfb] at hc
          have h1 := countP_pos_of_mem f rest a hmem hf
          rw [show (if (true = true) then (1 : Nat) else 0) = 1 from rfl] at hc
          exfalso
          omega

/-- Claim C6: `advance` removes every queued entry with fire time at or
before the clock (and only those), so afterwards no due entry remains;
when entries remain it reports `graph.schedule_node(node index, head fire
time)` where the head fire time is the smallest remaining one, and no call
is made when the queue empties. -/
theorem advance_drops_due_entries (s : NodeSchedulerState) (clock : Int)
    (hsorted : s.scheduled_events.Pairwise (fun a b => a.1 ≤ b.1)) :
    (∀ p ∈ (advance s clock).1.scheduled_events, clock < p.1) ∧
    (∀ p ∈ s.scheduled_events, clock < p.1 →
       p ∈ (advance s clock).1.scheduled_events) ∧
    ((advance s clock).1.scheduled_events = [] → (advance s clock).2 = none) ∧
    (∀ q, (advance s clock).1.scheduled_events.head? = some q →
       (advance s clock).2 = some (s.node_ndx, q.1) ∧
       ∀ p ∈ (advance s clock).1.scheduled_events, q.1 ≤ p.1) := by
  refine ⟨?_, ?_, ?_, ?_⟩
  · intro p hp
    exact dropWhile_gt_of_pairwise clock s.scheduled_events hsorted p hp
  · intro p hp hgt
    exact mem_dropWhile_of_gt clock s.scheduled_events p hp hgt
  · intro h
    simp only [advance] at h ⊢
    rw [h]
    rfl
  · intro q hq
    have hpw : ((advance s clock).1.scheduled_events).Pairwise
        (fun a b => a.1 ≤ b.1) :=
      hsorted.sublist (List.dropWhile_sublist _)
    constructor
    · simp only [advance] at hq ⊢
      rw [hq]
      rfl
    · intro p hp
      rcases List.head?_eq_some_iff.mp hq with ⟨t, ht⟩
      rw [ht] at hp hpw
      rcases List.mem_cons.mp hp with h | h
      · subst h; omega
      · exact List.rel_of_pairwise_cons hpw h

/-- Witness for C6: three queued entries, clock 5; the two due entries are
dropped and the node is rescheduled for the remaining fire time 9. -/
theorem advance_drops_due_entries_w :
    (∀ p ∈ (advance ⟨2, [(3, ""), (5, "x"), (9, "")], [(some "x", 5)]⟩ 5).1.scheduled_events,
       (5 : Int) < p.1) ∧
    (advance ⟨2, [(3, ""), (5, "x"), (9, "")], [(some "x", 5)]⟩ 5).2 = some (2, 9) := by
  have h := advance_drops_due_entries ⟨2, [(3, ""), (5, "x"), (9, "")], [(some "x", 5)]⟩ 5
    (by decide)
  refine ⟨h.1, ?_⟩
  have h4 := h.2.2.2 (9, "") (by decide)
  exact h4.1

/-- Claim C5 counterexample: a started node at clock 5 with a pending
entry `(10, "x")` for tag `"x"` calls `schedule(3, "x")`.  The resolved
time 3 is in the past, so nothing is inserted — but the call is not
silently ignored: the prior `(10, "x")` event has already been removed
from the event queue, so the scheduler state changes. -/
theorem schedule_past_with_pending_tag_not_ignored :
    schedule_state ⟨0, [(10, "x")], [(some "x", 10)]⟩ 5 true (WhenSpec.abs 3)
        (some "x")
      = some ⟨0, [], [(some "x", 10)]⟩ ∧
    (⟨0, [], [(some "x", 10)]⟩ : NodeSchedulerState)
      ≠ ⟨0, [(10, "x")], [(some "x", 10)]⟩ := by
  decide

/-- Claim C5 (amended): a started call with resolved `when ≤ clock`
inserts no entry and makes no `schedule_node` call; the state is unchanged
when the tag is anonymous or has no pending entry, but when the tag has a
pending entry that prior event has already been removed from the event
queue (its tag-map entry remains).  A same-tag call removes the prior
entry first, so under the tag-map/event-queue consistency invariant the
call does not raise and at most one pending event per named tag remains. -/
theorem schedule_rejects_past_and_replaces_tag
    (s : NodeSchedulerState) (clock : Int) (w : WhenSpec) :
    (resolve_when clock w ≤ clock →
       schedule s clock true w none = .ok (s, none) ∧
       (∀ t : String, tags_lookup s.tags (some t) = none →
          schedule s clock true w (some t) = .ok (s, none)) ∧
       (∀ t : String, ∀ dt : Int, tags_lookup s.tags (some t) = some dt →
          (dt, t) ∈ s.scheduled_events →
          schedule s clock true w (some t)
            = .ok ({ s with scheduled_events := s.scheduled_events.erase (dt, t) },
                   none))) ∧
    (∀ t : String, ∀ started : Bool,
       (∀ p ∈ s.scheduled_events, p.2 = t →
          tags_lookup s.tags (some t) = some p.1) →
       (∀ dt : Int, tags_lookup s.tags (some t) = some dt →
          (dt, t) ∈ s.scheduled_events) →
       events_count_tag s.scheduled_events t ≤ 1 →
       schedule_state s clock started w (some t) ≠ none ∧
       ∀ s2, schedule_state s clock started w (some t) = some s2 →
         events_count_tag s2.scheduled_events t ≤ 1) := by
  constructor
  · intro hpast
    have hng : ¬ (clock < resolve_when clock w) := not_lt.mpr hpast
    refine ⟨?_, ?_, ?_⟩
    · simp [schedule, hng]
    · intro t hl
      simp [schedule, hl, hng]
    · intro t dt hl hm
      simp [schedule, hl, hng, sorted_remove, hm]
  · intro t started hcons hcons2 hcount
    cases hl : tags_lookup s.tags (some t) with
    | none =>
        have hcount0 : s.scheduled_events.countP (fun p => p.2 == t) = 0 := by
          by_contra hne
          have hpos : 0 < s.scheduled_events.countP (fun p => p.2 == t) := by
            omega
          rcases List.countP_pos_iff.mp hpos with ⟨p, hp, hpt⟩
          have hpt2 : p.2 = t := by simpa using hpt
          have := hcons p hp hpt2
          rw [hl] at this
          exact Option.noConfusion this
        by_cases hacc : (if started = true then clock else MIN_DT)
            < resolve_when clock w
        · constructor
          · simp [schedule_state, schedule, hl, hacc, Except.toOption]
          · intro s2 heq
            simp [schedule_state, schedule, hl, hacc, Except.toOption] at heq
            subst heq
            show (sorted_insert (resolve_when clock w, t)
                s.scheduled_events).countP (fun p => p.2 == t) ≤ 1
            rw [countP_sorted_insert_pos _ _ (by simp), hcount0]
        · constructor
          · simp [schedule_state, schedule, hl, hacc, Except.toOption]
          · intro s2 heq
            simp [schedule_state, schedule, hl, hacc, Except.toOption] at heq
            subst heq
            exact hcount
    | some dt =>
        have hmem := hcons2 dt hl
        have herase0 : (s.scheduled_events.erase (dt, t)).countP
            (fun p => p.2 == t) = 0 :=
          countP_erase_eq_zero _ _ _ hmem (by simp) hcount
        by_cases hacc : (if started = true then clock else MIN_DT)
            < resolve_when clock w
        · constructor
          · simp [schedule_state, schedule, hl, sorted_remove, hmem, hacc, Except.toOption]
          · intro s2 heq
            simp [schedule_state, schedule, hl, sorted_remove, hmem, hacc, Except.toOption] at heq
            subst heq
            show (sorted_insert (resolve_when clock w, t)
                (s.scheduled_events.erase (dt, t))).countP (fun p => p.2 == t) ≤ 1
            rw [countP_sorted_insert_pos _ _ (by simp), herase0]
        · constructor
          · simp [schedule_state, schedule, hl, sorted_remove, hmem, hacc, Except.toOption]
          · intro s2 heq
            simp [schedule_state, schedule, hl, sorted_remove, hmem, hacc, Except.toOption] at heq
            subst heq
            show (s.scheduled_events.erase (dt, t)).countP (fun p => p.2 == t) ≤ 1
            rw [herase0]
            omega

/-- Witness for the amended C5 at a started node, clock 5, pending entry
`(10, "x")`, call `schedule(3, "x")`. -/
theorem schedule_rejects_past_and_replaces_tag_w :
    schedule (⟨0, [(10, "x")], [(some "x", 10)]⟩ : NodeSchedulerState) 5 true
        (WhenSpec.abs 3) (some "x")
      = .ok (⟨0, [], [(some "x", 10)]⟩, none) ∧
    schedule_state (⟨0, [(10, "x")], [(some "x", 10)]⟩ : NodeSchedulerState) 5
        true (WhenSpec.abs 3) (some "x") ≠ none := by
  have h := schedule_rejects_past_and_replaces_tag
    ⟨0, [(10, "x")], [(some "x", 10)]⟩ 5 (WhenSpec.abs 3)
  have h3 := (h.1 (by decide)).2.2 "x" 10 (by decide) (by decide)
  have h4 := (h.2 "x" true (by decide) (by decide) (by decide)).1
  exact ⟨h3, h4⟩

/-- Claim C10: an anonymous `schedule(when)` writes the tag map under the
key `none` while queueing the event under the tag string `""`; a second
anonymous schedule overwrites the `none` tag-map entry while both queued
events coexist, so the tag map and the event list are not in one-to-one
correspondence for anonymous entries. -/
theorem schedule_anonymous_writes_none_key
    (ndx : Nat) (clock w1 w2 : Int) (h1 : clock < w1) (h2 : clock < w2) :
    ∃ s1, schedule_state ⟨ndx, [], []⟩ clock true (WhenSpec.abs w1) none
        = some s1 ∧
      s1.tags = [(none, w1)] ∧ s1.scheduled_events = [(w1, "")] ∧
      ∃ s2, schedule_state s1 clock true (WhenSpec.abs w2) none = some s2 ∧
        s2.tags = [(none, w2)] ∧
        s2.scheduled_events.length = 2 ∧
        (w1, "") ∈ s2.scheduled_events ∧ (w2, "") ∈ s2.scheduled_events := by
  have e1 : schedule_state ⟨ndx, [], []⟩ clock true (WhenSpec.abs w1) none
      = some ⟨ndx, [(w1, "")], [(none, w1)]⟩ := by
    simp [schedule_state, schedule, h1, sorted_insert, tags_insert, resolve_when, Except.toOption]
  refine ⟨_, e1, rfl, rfl, ?_⟩
  by_cases hcmp : pair_le (w2, "") (w1, "") = true
  · have e2 : schedule_state ⟨ndx, [(w1, "")], [(none, w1)]⟩ clock true
        (WhenSpec.abs w2) none
        = some ⟨ndx, [(w2, ""), (w1, "")], [(none, w2)]⟩ := by
      simp [schedule_state, schedule, h2, sorted_insert, tags_insert, hcmp, resolve_when, Except.toOption]
    exact ⟨_, e2, rfl, rfl, by simp, by simp⟩
  · have e2 : schedule_state ⟨ndx, [(w1, "")], [(none, w1)]⟩ clock true
        (WhenSpec.abs w2) none
        = some ⟨ndx, [(w1, ""), (w2, "")], [(none, w2)]⟩ := by
      simp [schedule_state, schedule, h2, sorted_insert, tags_insert, hcmp, resolve_when, Except.toOption]
    exact ⟨_, e2, rfl, rfl, by simp, by simp⟩

/-- Witness for C10: two anonymous schedules at clock 0 for times 5 and
3. -/
theorem schedule_anonymous_writes_none_key_w :
    ∃ s1, schedule_state ⟨0, [], []⟩ 0 true (WhenSpec.abs 5) none = some s1 ∧
      s1.tags = [(none, 5)] ∧ s1.scheduled_events = [(5, "")] ∧
      ∃ s2, schedule_state s1 0 true (WhenSpec.abs 3) none = some s2 ∧
        s2.tags = [(none, 3)] ∧
        s2.scheduled_events.length = 2 ∧
        ((5 : Int), "") ∈ s2.scheduled_events ∧
        ((3 : Int), "") ∈ s2.scheduled_events :=
  schedule_anonymous_writes_none_key 0 0 5 3 (by decide) (by decide)

end HGraph
